import Mathlib

/-! Shallow embedding of the bill-splitter component in `src/src/App.tsx`.

JavaScript numbers are idealised as rationals together with `NaN`; the strings
stored in numeric fields are represented by the rational their decimal numeral
denotes. JavaScript objects with string keys are modelled as insertion-ordered
association lists, matching the enumeration order of `Object.entries` /
`Object.values`. React event handlers close over the state of the render in
which they were created, so every handler is embedded as a function of the
pre-event state; values produced by `Date.now().toString()` are supplied as
explicit arguments, since they come from an external clock. -/

namespace Themis

/-- Model of the JavaScript strings stored in the numeric fields of the app:
the empty string, a decimal numeral denoting the rational `q`, the literal
`"NaN"` produced by `toFixed` on NaN, or some other string without a numeric
prefix (tagged so that distinct junk strings stay distinct). -/
inductive JStr where
  | empty : JStr
  | num (q : ℚ) : JStr
  | nanLit : JStr
  | other (s : String) : JStr
deriving DecidableEq, Repr

/-- Model of a JavaScript number: `NaN` or a rational. -/
inductive JSNum where
  | nan : JSNum
  | val (q : ℚ) : JSNum
deriving DecidableEq, Repr

/-- JavaScript `parseFloat` on the modelled strings: a decimal numeral parses
to its value; the empty string, the `"NaN"` literal and junk give `NaN`. -/
def parseFloat : JStr → JSNum
  | .num q => .val q
  | _ => .nan

/-- The `parseFloat(x) || 0` and `isNaN(x) ? 0 : x` coercions used by the
summary and validation code: `NaN` becomes `0` (and `0` stays `0`). -/
def orZero : JSNum → ℚ
  | .nan => 0
  | .val q => q

/-- Rounding performed by `Number.prototype.toFixed(2)`: the integer `n` with
`n / 100` closest to `q`, ties toward the larger `n`, i.e. `⌊100 q + 1/2⌋`,
read back as the rational denoted by the produced 2-decimal numeral. -/
def round2 (q : ℚ) : ℚ :=
  ((Int.fdiv (q * 100 + 1 / 2).num ((q * 100 + 1 / 2).den : Int) : Int) : ℚ) / 100

/-- JavaScript `x.toFixed(2)` as a string value: `NaN` prints as `"NaN"`, a
number prints as the 2-decimal numeral denoting `round2 q`. -/
def toFixed2 : JSNum → JStr
  | .nan => .nanLit
  | .val q => .num (round2 q)

/-- Division of a JavaScript number by a participant count. Both call sites in
the source guard the count to be positive, so the count-zero branch is never
reached. -/
def jsDivNat : JSNum → Nat → JSNum
  | .nan, _ => .nan
  | .val q, n => if n = 0 then .nan else .val (q / (n : ℚ))

/-- Property lookup on a JavaScript object modelled as an insertion-ordered
association list. -/
def lookupObj {α : Type} (m : List (String × α)) (k : String) : Option α :=
  (m.find? (fun e => e.fst == k)).map (fun e => e.snd)

/-- JavaScript object write `{ ...m, [k]: v }` / `m[k] = v`: an existing key
keeps its position and receives the new value; a new key is appended. -/
def objInsert {α : Type} (m : List (String × α)) (k : String) (v : α) :
    List (String × α) :=
  if m.any (fun e => e.fst == k) then
    m.map (fun e => if e.fst == k then (k, v) else e)
  else
    m ++ [(k, v)]

/-- JavaScript rest-destructuring `const { [k]: removed, ...rest } = m`. -/
def objErase {α : Type} (m : List (String × α)) (k : String) :
    List (String × α) :=
  m.filter (fun e => e.fst != k)

/-- JavaScript `Object.fromEntries`: entries are inserted left to right. -/
def jsFromEntries {α : Type} (l : List (String × α)) : List (String × α) :=
  l.foldl (fun m e => objInsert m e.fst e.snd) []

/-- Participant record (`interface Participant`, App.tsx lines 11–14). -/
structure Participant where
  id : String
  name : String
deriving DecidableEq, Repr

/-- Transaction record (`interface Transaction`, lines 16–23): `amount` and
the contribution values are numeric-field strings, `payer` is a participant id
or the empty string. -/
structure Transaction where
  id : String
  title : String
  amount : JStr
  payer : String
  contributions : List (String × JStr)
  isSplitBill : Bool
deriving DecidableEq, Repr

/-- The component state: participant registry, ledger, draft transaction and
edit-in-progress id (JavaScript `null` modelled as `none`). The transient
name-input field and the localStorage mirror are presentation plumbing; the
field text is passed as an argument where needed. -/
structure AppState where
  participants : List Participant
  transactions : List Transaction
  currentTransaction : Transaction
  editingTransactionId : Option String
deriving DecidableEq, Repr

/-- Function `recalculateSplitBill` (lines 81–86). In the source it closes
over the render-time `participants`; that list is passed here explicitly. -/
def recalculateSplitBill (participants : List Participant) (amount : JStr) :
    List (String × JStr) :=
  if participants.length = 0 then []
  else
    let splitAmount := toFixed2 (jsDivNat (parseFloat amount) participants.length)
    jsFromEntries (participants.map (fun p => (p.id, splitAmount)))

/-- JavaScript `String.prototype.trim` (strip leading and trailing
whitespace), implemented structurally on the character list so that the kernel
can evaluate it (Lean's own `String.trim` is defined by well-founded recursion
and does not reduce). -/
def jsTrim (s : String) : String :=
  ⟨((s.data.dropWhile Char.isWhitespace).reverse.dropWhile Char.isWhitespace).reverse⟩

/-- Handler `addParticipant` (lines 48–62). `newParticipant` is the text of
the name input field and `freshId` the value of `Date.now().toString()`. In
equal-split mode only the new participant's contribution entry is written,
computed with the incremented count `participants.length + 1`. -/
def addParticipant (s : AppState) (newParticipant : String) (freshId : String) :
    AppState :=
  if jsTrim newParticipant ≠ "" then
    let newParticipantObj : Participant := { id := freshId, name := jsTrim newParticipant }
    let prev := s.currentTransaction
    { s with
      participants := s.participants ++ [newParticipantObj],
      currentTransaction :=
        { prev with
          contributions :=
            objInsert prev.contributions newParticipantObj.id
              (if prev.isSplitBill then
                toFixed2 (jsDivNat (parseFloat prev.amount) (s.participants.length + 1))
              else JStr.empty) } }
  else s

/-- Handler `removeParticipant` (lines 64–79). The call
`recalculateSplitBill(prev.amount)` runs the closure captured at render time,
whose `participants` is still the pre-removal list. -/
def removeParticipant (s : AppState) (id : String) : AppState :=
  let prev := s.currentTransaction
  let restContributions := objErase prev.contributions id
  let updatedTransaction : Transaction :=
    if prev.isSplitBill then
      { prev with contributions := recalculateSplitBill s.participants prev.amount }
    else
      { prev with contributions := restContributions }
  { s with
    participants := s.participants.filter (fun p => p.id != id),
    currentTransaction := updatedTransaction }

/-- The reset template built at the end of `submitTransaction` (lines
125–132): every field empty, one empty-string contribution entry per current
participant. -/
def emptyDraft (participants : List Participant) : Transaction :=
  { id := "", title := "", amount := JStr.empty, payer := "",
    contributions := jsFromEntries (participants.map (fun p => (p.id, JStr.empty))),
    isSplitBill := false }

/-- Handler `submitTransaction` (lines 116–133). The guard
`if (editingTransactionId)` is JavaScript truthiness: the edit branch is taken
only for a non-null, non-empty id. `freshId` is `Date.now().toString()`. -/
def submitTransaction (s : AppState) (freshId : String) : AppState :=
  let appended : AppState :=
    { s with
      transactions := s.transactions ++ [{ s.currentTransaction with id := freshId }] }
  let s1 : AppState :=
    match s.editingTransactionId with
    | some eid =>
      if eid ≠ "" then
        { s with
          transactions := s.transactions.map (fun t =>
            if t.id == eid then { s.currentTransaction with id := eid } else t),
          editingTransactionId := none }
      else appended
    | none => appended
  { s1 with currentTransaction := emptyDraft s.participants }

/-- Result of handler `editTransaction` (lines 135–139): the value stored into
the draft (`transactions.find(...)`, which is `undefined`, i.e. `none`, when
the id is absent — an ill-typed draft), the new edit-in-progress id (written
unconditionally), and the ledger (never written by this handler). -/
structure EditOutcome where
  draftLoaded : Option Transaction
  editingAfter : Option String
  transactionsAfter : List Transaction
deriving DecidableEq, Repr

/-- Handler `editTransaction` (lines 135–139). -/
def editTransaction (s : AppState) (id : String) : EditOutcome :=
  { draftLoaded := s.transactions.find? (fun t => t.id == id)
  , editingAfter := some id
  , transactionsAfter := s.transactions }

/-- Handler `deleteTransaction` (lines 141–143): filters the ledger; the draft
and the edit-in-progress id are not written. -/
def deleteTransaction (s : AppState) (id : String) : AppState :=
  { s with transactions := s.transactions.filter (fun t => t.id != id) }

/-- Evolution of a number-valued object entry under the JavaScript compound
assignment `m[k] += x`: a missing key yields `undefined + x = NaN`, an
existing `NaN` stays `NaN`. -/
def bumpAdd (cur : Option JSNum) (x : ℚ) : JSNum :=
  match cur with
  | some (JSNum.val q) => JSNum.val (q + x)
  | _ => JSNum.nan

/-- Evolution of a number-valued object entry under `m[k] -= x`. -/
def bumpSub (cur : Option JSNum) (x : ℚ) : JSNum :=
  match cur with
  | some (JSNum.val q) => JSNum.val (q - x)
  | _ => JSNum.nan

/-- JavaScript `summary[k] += x` (line 150). -/
def jsAddAssign (m : List (String × JSNum)) (k : String) (x : ℚ) :
    List (String × JSNum) :=
  objInsert m k (bumpAdd (lookupObj m k) x)

/-- JavaScript `summary[k] -= x` (line 153). -/
def jsSubAssign (m : List (String × JSNum)) (k : String) (x : ℚ) :
    List (String × JSNum) :=
  objInsert m k (bumpSub (lookupObj m k) x)

/-- Body of the `transactions.forEach` loop of `calculateSummary` (lines
148–155): the payer update guarded by truthiness of `t.payer`, then one
`-=` per contribution entry. -/
def applyTransaction (summary : List (String × JSNum)) (t : Transaction) :
    List (String × JSNum) :=
  let afterPayer :=
    if t.payer ≠ "" then jsAddAssign summary t.payer (orZero (parseFloat t.amount))
    else summary
  t.contributions.foldl (fun m e => jsSubAssign m e.fst (orZero (parseFloat e.snd)))
    afterPayer

/-- Function `calculateSummary` (lines 145–158), over the render-time
participants and transactions. -/
def calculateSummary (participants : List Participant)
    (transactions : List Transaction) : List (String × JSNum) :=
  transactions.foldl applyTransaction
    (jsFromEntries (participants.map (fun p => (p.id, JSNum.val 0))))

/-- Function `validateContributions` (lines 160–173). -/
def validateContributions (t : Transaction) : String :=
  let totalAmount := orZero (parseFloat t.amount)
  let totalContributions :=
    t.contributions.foldl (fun sum e => sum + orZero (parseFloat e.snd)) 0
  if totalContributions > totalAmount then
    "Total contributions exceed the transaction amount."
  else if totalContributions < totalAmount then
    "Total contributions are less than the transaction amount."
  else ""

/-! ### Spec-side derived quantities -/

/-- Total of the parsed contribution values of a transaction (non-numeric
values count as 0), written as a sum rather than the source's accumulator. -/
def contribTotal (t : Transaction) : ℚ :=
  (t.contributions.map (fun e => orZero (parseFloat e.snd))).sum

/-- Net effect of one transaction on the balance of id `k`: the parsed amount
when `k` is its non-empty payer, minus the parsed values of its contribution
entries keyed by `k`. -/
def netOf (k : String) (t : Transaction) : ℚ :=
  (if t.payer = k ∧ t.payer ≠ "" then orZero (parseFloat t.amount) else 0) -
    ((t.contributions.filter (fun e => e.fst == k)).map
      (fun e => orZero (parseFloat e.snd))).sum

/-- Balance of id `k` over a transaction list, written with sums. -/
def balanceSpec (k : String) (ts : List Transaction) : ℚ :=
  (ts.map (netOf k)).sum

/-- Whether some transaction writes the summary entry of id `k`, either as a
non-empty payer or through a contribution entry keyed by `k`. -/
def touched (k : String) (ts : List Transaction) : Bool :=
  ts.any (fun t =>
    decide (t.payer = k ∧ t.payer ≠ "") || t.contributions.any (fun e => e.fst == k))

/-! ### Object-model lemmas -/

theorem find?_map_replace_self {α : Type} (m : List (String × α)) (k : String) (v : α)
    (h : m.any (fun e => e.fst == k) = true) :
    (m.map (fun e => if e.fst == k then (k, v) else e)).find? (fun e => e.fst == k) =
      some (k, v) := by
  induction m with
  | nil => simp at h
  | cons e m ih =>
    simp only [List.map_cons]
    by_cases he : (e.fst == k) = true
    · rw [if_pos he]
      simp [List.find?_cons]
    · rw [if_neg he]
      have he0 : (e.fst == k) = false := by simpa using he
      simp only [List.find?_cons, he0]
      apply ih
      simp only [List.any_cons, Bool.or_eq_true] at h
      rcases h with h | h
      · exact absurd h he
      · exact h

theorem find?_map_replace_ne {α : Type} (m : List (String × α)) (k k' : String) (v : α)
    (h : k' ≠ k) :
    (m.map (fun e => if e.fst == k then (k, v) else e)).find? (fun e => e.fst == k') =
      m.find? (fun e => e.fst == k') := by
  induction m with
  | nil => rfl
  | cons e m ih =>
    simp only [List.map_cons]
    by_cases he : (e.fst == k) = true
    · rw [if_pos he]
      have hek : e.fst = k := by simpa using he
      have h1 : (k == k') = false := by
        simp only [beq_eq_false_iff_ne, ne_eq]
        exact fun hh => h hh.symm
      have h2 : (e.fst == k') = false := by rw [hek]; exact h1
      simp only [List.find?_cons, h1, h2, ih]
    · rw [if_neg he]
      by_cases he' : (e.fst == k') = true
      · simp only [List.find?_cons, he']
      · have he0 : (e.fst == k') = false := by simpa using he'
        simp only [List.find?_cons, he0, ih]

/-- Lookup after a JavaScript object write: the written key reads back the new
value, every other key is unaffected. -/
theorem lookupObj_objInsert {α : Type} (m : List (String × α)) (k k' : String) (v : α) :
    lookupObj (objInsert m k v) k' = if k' = k then some v else lookupObj m k' := by
  unfold objInsert lookupObj
  by_cases hany : m.any (fun e => e.fst == k) = true
  · rw [if_pos hany]
    by_cases hk : k' = k
    · subst hk
      rw [find?_map_replace_self m k' v hany]
      simp
    · rw [find?_map_replace_ne m k k' v hk, if_neg hk]
  · rw [if_neg hany, List.find?_append]
    by_cases hk : k' = k
    · subst hk
      have hnone : m.find? (fun e => e.fst == k') = none := by
        rw [List.find?_eq_none]
        intro x hx
        simp only [beq_iff_eq]
        intro hfst
        exact hany (List.any_eq_true.mpr ⟨x, hx, by simp [hfst]⟩)
      rw [hnone, if_pos rfl]
      simp
    · rw [if_neg hk]
      have h1 : ([(k, v)] : List (String × α)).find? (fun e => e.fst == k') = none := by
        rw [List.find?_eq_none]
        intro x hx
        simp only [List.mem_singleton] at hx
        subst hx
        simp only [beq_iff_eq]
        exact fun hh => hk hh.symm
      rw [h1]
      cases m.find? (fun e => e.fst == k') <;> simp [Option.or]

/-- Writing an absent key appends the entry. -/
theorem objInsert_of_not_mem {α : Type} (m : List (String × α)) (k : String) (v : α)
    (h : ∀ e ∈ m, e.fst ≠ k) : objInsert m k v = m ++ [(k, v)] := by
  have hfalse : m.any (fun e => e.fst == k) = false := by
    rw [List.any_eq_false]
    intro e he
    simp [h e he]
  unfold objInsert
  simp [hfalse]

theorem foldl_objInsert_of_nodup {α : Type} (l : List (String × α)) :
    ∀ acc : List (String × α), ((acc ++ l).map Prod.fst).Nodup →
      l.foldl (fun m e => objInsert m e.fst e.snd) acc = acc ++ l := by
  induction l with
  | nil => intro acc _; simp
  | cons e l ih =>
    intro acc h
    have ha : e.fst ∉ acc.map Prod.fst := by
      have h2 := h
      simp only [List.map_append, List.map_cons, List.nodup_append] at h2
      intro hmem
      exact h2.2.2 hmem (List.mem_cons_self _ _)
    have hkey : ∀ e2 ∈ acc, e2.fst ≠ e.fst := by
      intro e2 he2 heq
      exact ha (heq ▸ List.mem_map.mpr ⟨e2, he2, rfl⟩)
    rw [List.foldl_cons, objInsert_of_not_mem acc e.fst e.snd hkey]
    rw [ih (acc ++ [e]) (by simpa using h)]
    simp

/-- With pairwise-distinct keys, `Object.fromEntries` returns the entry list
itself. -/
theorem jsFromEntries_eq_self {α : Type} (l : List (String × α))
    (h : (l.map Prod.fst).Nodup) : jsFromEntries l = l := by
  unfold jsFromEntries
  simpa using foldl_objInsert_of_nodup l [] (by simpa using h)

/-- Lookup of a present participant id in a constant-valued entry list. -/
theorem lookupObj_map_const {α : Type} (c : α) (k : String) (ps : List Participant)
    (h : k ∈ ps.map Participant.id) :
    lookupObj (ps.map (fun p => (p.id, c))) k = some c := by
  induction ps with
  | nil => simp at h
  | cons p ps ih =>
    by_cases hp : p.id = k
    · simp [lookupObj, List.find?_cons, hp]
    · have hmem : k ∈ ps.map Participant.id := by
        simp only [List.map_cons, List.mem_cons] at h
        rcases h with h | h
        · exact absurd h.symm hp
        · exact h
      simp only [List.map_cons]
      unfold lookupObj
      have hp0 : (p.id == k) = false := by simpa using hp
      simp only [List.find?_cons, hp0]
      simpa [lookupObj] using ih hmem

theorem map_replace_of_not_mem (l : List Transaction) (eid : String) (r : Transaction)
    (h : ∀ t ∈ l, t.id ≠ eid) :
    l.map (fun t => if t.id == eid then r else t) = l := by
  have h2 : l.map (fun t => if t.id == eid then r else t) = l.map id :=
    List.map_congr_left (fun t ht => by simp [h t ht])
  simpa using h2

theorem find?_eq_some_of_mem_nodup (l : List Transaction) (t : Transaction) (i : String)
    (hnd : (l.map Transaction.id).Nodup) (hmem : t ∈ l) (hid : t.id = i) :
    l.find? (fun x => x.id == i) = some t := by
  induction l with
  | nil => simp at hmem
  | cons a l ih =>
    simp only [List.map_cons, List.nodup_cons] at hnd
    rcases List.mem_cons.mp hmem with rfl | hmem2
    · have h0 : (t.id == i) = true := by simp [hid]
      simp only [List.find?_cons, h0]
    · by_cases ha : a.id = i
      · exact absurd (by rw [ha, ← hid]; exact List.mem_map.mpr ⟨t, hmem2, rfl⟩) hnd.1
      · have h0 : (a.id == i) = false := by simpa using ha
        simp only [List.find?_cons, h0]
        exact ih hnd.2 hmem2

theorem foldl_add_eq_sum {α : Type} (f : α → ℚ) (l : List α) :
    ∀ a : ℚ, l.foldl (fun s e => s + f e) a = a + (l.map f).sum := by
  induction l with
  | nil => intro a; simp
  | cons e l ih => intro a; simp [ih, add_assoc]

/-! ### Per-key evolution of the balance summary -/

theorem lookupObj_jsAddAssign (m : List (String × JSNum)) (k k' : String) (x : ℚ) :
    lookupObj (jsAddAssign m k x) k' =
      if k' = k then some (bumpAdd (lookupObj m k) x) else lookupObj m k' :=
  lookupObj_objInsert m k k' _

theorem lookupObj_jsSubAssign (m : List (String × JSNum)) (k k' : String) (x : ℚ) :
    lookupObj (jsSubAssign m k x) k' =
      if k' = k then some (bumpSub (lookupObj m k) x) else lookupObj m k' :=
  lookupObj_objInsert m k k' _

/-- Evolution of the summary entry of id `k` across one iteration of the
`transactions.forEach` loop. -/
def tStep (k : String) (cur : Option JSNum) (t : Transaction) : Option JSNum :=
  let cur1 :=
    if t.payer = k ∧ t.payer ≠ "" then some (bumpAdd cur (orZero (parseFloat t.amount)))
    else cur
  (t.contributions.filter (fun e => e.fst == k)).foldl
    (fun c e => some (bumpSub c (orZero (parseFloat e.snd)))) cur1

theorem lookupObj_contribFoldl (l : List (String × JStr)) :
    ∀ (m : List (String × JSNum)) (k : String),
      lookupObj (l.foldl (fun m2 e => jsSubAssign m2 e.fst (orZero (parseFloat e.snd))) m) k =
        (l.filter (fun e => e.fst == k)).foldl
          (fun c e => some (bumpSub c (orZero (parseFloat e.snd)))) (lookupObj m k) := by
  induction l with
  | nil => intro m k; rfl
  | cons e l ih =>
    intro m k
    rw [List.foldl_cons, ih]
    by_cases he : (e.fst == k) = true
    · have hek : e.fst = k := by simpa using he
      simp only [List.filter_cons, he, if_true, List.foldl_cons]
      congr 1
      rw [lookupObj_jsSubAssign]
      simp [hek]
    · have he0 : (e.fst == k) = false := by simpa using he
      simp only [List.filter_cons, he0, Bool.false_eq_true, if_false]
      congr 1
      rw [lookupObj_jsSubAssign]
      have : ¬k = e.fst := fun hh => he (by simp [hh])
      simp [this]

theorem lookupObj_applyTransaction (m : List (String × JSNum)) (t : Transaction)
    (k : String) :
    lookupObj (applyTransaction m t) k = tStep k (lookupObj m k) t := by
  unfold applyTransaction tStep
  rw [lookupObj_contribFoldl]
  congr 1
  by_cases hp : t.payer ≠ ""
  · rw [if_pos hp]
    rw [lookupObj_jsAddAssign]
    by_cases hpk : t.payer = k
    · subst hpk
      simp [hp]
    · have h1 : ¬k = t.payer := fun hh => hpk hh.symm
      have h2 : ¬(t.payer = k ∧ t.payer ≠ "") := fun hh => hpk hh.1
      simp [h1, h2]
  · rw [if_neg hp]
    have h2 : ¬(t.payer = k ∧ t.payer ≠ "") := fun hh => hp hh.2
    simp [h2]

theorem lookupObj_foldl_applyTransaction (ts : List Transaction) :
    ∀ (m : List (String × JSNum)) (k : String),
      lookupObj (ts.foldl applyTransaction m) k = ts.foldl (tStep k) (lookupObj m k) := by
  induction ts with
  | nil => intro m k; rfl
  | cons t ts ih =>
    intro m k
    rw [List.foldl_cons, ih, lookupObj_applyTransaction, List.foldl_cons]

theorem subFoldl_val (f : (String × JStr) → ℚ) (l : List (String × JStr)) :
    ∀ q : ℚ, l.foldl (fun c e => some (bumpSub c (f e))) (some (JSNum.val q)) =
      some (JSNum.val (q - (l.map f).sum)) := by
  induction l with
  | nil => intro q; simp
  | cons e l ih =>
    intro q
    rw [List.foldl_cons]
    have h1 : bumpSub (some (JSNum.val q)) (f e) = JSNum.val (q - f e) := rfl
    rw [h1, ih]
    simp [sub_sub]

theorem subFoldl_nan (f : (String × JStr) → ℚ) (l : List (String × JStr)) :
    l.foldl (fun c e => some (bumpSub c (f e))) (some JSNum.nan) = some JSNum.nan := by
  induction l with
  | nil => rfl
  | cons e l ih =>
    rw [List.foldl_cons]
    have h1 : bumpSub (some JSNum.nan) (f e) = JSNum.nan := rfl
    rw [h1, ih]

theorem subFoldl_none (f : (String × JStr) → ℚ) (l : List (String × JStr)) :
    l.foldl (fun c e => some (bumpSub c (f e))) none =
      if l = [] then none else some JSNum.nan := by
  cases l with
  | nil => rfl
  | cons e l =>
    rw [List.foldl_cons]
    have h1 : bumpSub none (f e) = JSNum.nan := rfl
    rw [h1]
    simp [subFoldl_nan]

theorem tStep_val (k : String) (t : Transaction) (q : ℚ) :
    tStep k (some (JSNum.val q)) t = some (JSNum.val (q + netOf k t)) := by
  unfold tStep netOf
  by_cases hp : t.payer = k ∧ t.payer ≠ ""
  · rw [if_pos hp, if_pos hp]
    have h1 : bumpAdd (some (JSNum.val q)) (orZero (parseFloat t.amount)) =
        JSNum.val (q + orZero (parseFloat t.amount)) := rfl
    rw [h1, subFoldl_val]
    congr 2
    ring
  · rw [if_neg hp, if_neg hp, subFoldl_val]
    congr 2
    ring

theorem tStep_nan (k : String) (t : Transaction) :
    tStep k (some JSNum.nan) t = some JSNum.nan := by
  unfold tStep
  by_cases hp : t.payer = k ∧ t.payer ≠ ""
  · rw [if_pos hp]
    have h1 : bumpAdd (some JSNum.nan) (orZero (parseFloat t.amount)) = JSNum.nan := rfl
    rw [h1, subFoldl_nan]
  · rw [if_neg hp, subFoldl_nan]

theorem tStep_none (k : String) (t : Transaction) :
    tStep k none t =
      if decide (t.payer = k ∧ t.payer ≠ "") || t.contributions.any (fun e => e.fst == k) then
        some JSNum.nan
      else none := by
  unfold tStep
  by_cases hp : t.payer = k ∧ t.payer ≠ ""
  · rw [if_pos hp]
    have h1 : bumpAdd none (orZero (parseFloat t.amount)) = JSNum.nan := rfl
    rw [h1, subFoldl_nan]
    have hcond : (decide (t.payer = k ∧ t.payer ≠ "") ||
        t.contributions.any (fun e => e.fst == k)) = true := by
      rw [decide_eq_true hp]
      rfl
    rw [if_pos hcond]
  · rw [if_neg hp, subFoldl_none]
    by_cases hc : t.contributions.any (fun e => e.fst == k) = true
    · have hne : t.contributions.filter (fun e => e.fst == k) ≠ [] := by
        rcases List.any_eq_true.mp hc with ⟨e, he, hek⟩
        intro hnil
        have : e ∈ t.contributions.filter (fun e => e.fst == k) :=
          List.mem_filter.mpr ⟨he, hek⟩
        rw [hnil] at this
        simp at this
      simp [hp, hc, hne]
    · have hnil : t.contributions.filter (fun e => e.fst == k) = [] := by
        rw [List.filter_eq_nil_iff]
        intro e he
        exact fun hek => hc (List.any_eq_true.mpr ⟨e, he, hek⟩)
      simp [hp, hc, hnil]

theorem foldl_tStep_val (k : String) (ts : List Transaction) :
    ∀ q : ℚ, ts.foldl (tStep k) (some (JSNum.val q)) =
      some (JSNum.val (q + balanceSpec k ts)) := by
  induction ts with
  | nil => intro q; simp [balanceSpec]
  | cons t ts ih =>
    intro q
    rw [List.foldl_cons, tStep_val, ih]
    congr 2
    simp [balanceSpec, add_assoc]

theorem foldl_tStep_nan (k : String) (ts : List Transaction) :
    ts.foldl (tStep k) (some JSNum.nan) = some JSNum.nan := by
  induction ts with
  | nil => rfl
  | cons t ts ih => rw [List.foldl_cons, tStep_nan, ih]

theorem foldl_tStep_none (k : String) (ts : List Transaction) :
    ts.foldl (tStep k) none = if touched k ts then some JSNum.nan else none := by
  induction ts with
  | nil => rfl
  | cons t ts ih =>
    rw [List.foldl_cons, tStep_none]
    by_cases ht : (decide (t.payer = k ∧ t.payer ≠ "") ||
        t.contributions.any (fun e => e.fst == k)) = true
    · rw [if_pos ht, foldl_tStep_nan]
      have : touched k (t :: ts) = true := by
        unfold touched
        rw [List.any_cons, ht]
        rfl
      rw [if_pos this]
    · have ht0 : (decide (t.payer = k ∧ t.payer ≠ "") ||
          t.contributions.any (fun e => e.fst == k)) = false := Bool.eq_false_iff.mpr ht
      rw [ht0, if_neg (by simp), ih]
      have : touched k (t :: ts) = touched k ts := by
        unfold touched
        rw [List.any_cons, ht0]
        simp
      rw [this]

theorem lookupObj_foldl_const {α : Type} (v : α) (k : String) (ps : List Participant) :
    ∀ acc : List (String × α),
      lookupObj ((ps.map (fun p => (p.id, v))).foldl (fun m e => objInsert m e.fst e.snd) acc) k =
        if k ∈ ps.map Participant.id then some v else lookupObj acc k := by
  induction ps with
  | nil => intro acc; simp
  | cons p ps ih =>
    intro acc
    rw [List.map_cons, List.foldl_cons, ih]
    by_cases hk : k ∈ ps.map Participant.id
    · rw [if_pos hk, if_pos (by simp [hk])]
    · rw [if_neg hk, lookupObj_objInsert]
      by_cases hp : k = p.id
      · rw [if_pos hp, if_pos (by simp [hp])]
      · rw [if_neg hp, if_neg (by simp [List.mem_cons, hp, hk])]

/-! ### Shared characterisations -/

/-- With a non-empty registry of pairwise-distinct ids, the split is one entry
per participant, all carrying `toFixed2` of the parsed amount divided by the
participant count. -/
theorem recalculateSplitBill_eq_map (parts : List Participant) (amount : JStr)
    (hne : parts ≠ []) (hnd : (parts.map Participant.id).Nodup) :
    recalculateSplitBill parts amount =
      parts.map (fun p => (p.id, toFixed2 (jsDivNat (parseFloat amount) parts.length))) := by
  have hlen : ¬parts.length = 0 := by
    intro h
    exact hne (List.length_eq_zero.mp h)
  unfold recalculateSplitBill
  rw [if_neg hlen]
  exact jsFromEntries_eq_self _ (by simpa [List.map_map, Function.comp] using hnd)

/-! ### Claim C1 -/

/-- Claim C1, counterexample: with one participant and an empty `amount`,
`recalculateSplitBill` assigns the participant the string `"NaN"`, not the
string of `0 / 1` rounded to 2 decimal places — this call site has no `|| 0`
coercion, so a non-numeric or empty amount is not treated as 0. -/
theorem c1_counterexample :
    recalculateSplitBill [⟨"1", "A"⟩] JStr.empty = [("1", JStr.nanLit)] ∧
    JStr.nanLit ≠ JStr.num (round2 (0 / 1)) := by
  decide

/-- Claim C1 (amended): for every non-empty participant list with distinct
ids, `recalculateSplitBill(amount, participants)` returns exactly one entry
per current participant, each equal to `toFixed2` of the parsed amount divided
by the participant count; a numeric amount `q` yields the 2-decimal rounding
of `q / count` for every participant, while a non-numeric or empty amount
yields the string `"NaN"` for every participant rather than being treated
as 0. -/
theorem c1_amended (parts : List Participant) (amount : JStr)
    (hne : parts ≠ []) (hnd : (parts.map Participant.id).Nodup) :
    recalculateSplitBill parts amount =
      parts.map (fun p => (p.id, toFixed2 (jsDivNat (parseFloat amount) parts.length))) ∧
    (∀ q : ℚ, amount = JStr.num q →
      toFixed2 (jsDivNat (parseFloat amount) parts.length) =
        JStr.num (round2 (q / (parts.length : ℚ)))) ∧
    (parseFloat amount = JSNum.nan →
      toFixed2 (jsDivNat (parseFloat amount) parts.length) = JStr.nanLit) := by
  have hlen : ¬parts.length = 0 := fun h => hne (List.length_eq_zero.mp h)
  refine ⟨recalculateSplitBill_eq_map parts amount hne hnd, ?_, ?_⟩
  · intro q hq
    subst hq
    simp only [parseFloat, jsDivNat, hlen, if_false, toFixed2]
  · intro hq
    rw [hq]
    rfl

/-- Claim C1, witness instance: two participants splitting a numeric amount of
100 get 50 each. -/
theorem c1_witness :
    recalculateSplitBill [⟨"1", "A"⟩, ⟨"2", "B"⟩] (JStr.num 100) =
      [("1", JStr.num 50), ("2", JStr.num 50)] := by
  have h := (c1_amended [⟨"1", "A"⟩, ⟨"2", "B"⟩] (JStr.num 100)
    (by decide) (by decide)).1
  rw [h]
  norm_num [toFixed2, jsDivNat, parseFloat, round2, Int.fdiv]

/-! ### Claim C2 -/

/-- Concrete state used for claim C2: two registered participants and an
equal-split draft of amount 100. -/
def c2State : AppState :=
  { participants := [⟨"1", "A"⟩, ⟨"2", "B"⟩],
    transactions := [],
    currentTransaction :=
      { id := "", title := "", amount := JStr.num 100, payer := "",
        contributions := [("1", JStr.num 50), ("2", JStr.num 50)],
        isSplitBill := true },
    editingTransactionId := none }

/-- Claim C2, counterexample: removing participant "1" from an equal-split
draft leaves the removed id in the recomputed contributions with divisor 2
(the pre-removal count); the claim would require the mapping
`[("2", "100.00")]` over the single remaining participant. The stale
render-time closure over `participants` is recomputed over the pre-removal
list. -/
theorem c2_counterexample :
    (removeParticipant c2State "1").currentTransaction.contributions =
      [("1", JStr.num 50), ("2", JStr.num 50)] ∧
    ((removeParticipant c2State "1").currentTransaction.contributions.any
      (fun e => e.fst == "1")) = true ∧
    (removeParticipant c2State "1").currentTransaction.contributions ≠
      [("2", JStr.num 100)] := by
  have hc : (removeParticipant c2State "1").currentTransaction.contributions =
      [("1", JStr.num 50), ("2", JStr.num 50)] := by
    simp [c2State, removeParticipant, objErase, recalculateSplitBill, jsFromEntries,
      objInsert, toFixed2, jsDivNat, parseFloat]
    norm_num [round2, Int.fdiv]
  refine ⟨hc, ?_, ?_⟩
  · rw [hc]
    rfl
  · rw [hc]
    simp

/-- Claim C2 (amended): `removeParticipant(id)` removes the participant from
the list, but when the draft is in equal-split mode it replaces the draft's
contributions with an equal split computed over the participant list as it was
before the removal — so the removed id reappears in the recomputed
contributions and the divisor is the pre-removal participant count. -/
theorem c2_amended (s : AppState) (pid : String)
    (hsplit : s.currentTransaction.isSplitBill = true)
    (hmem : pid ∈ s.participants.map Participant.id)
    (hnd : (s.participants.map Participant.id).Nodup) :
    (∀ p ∈ (removeParticipant s pid).participants, p.id ≠ pid) ∧
    (removeParticipant s pid).currentTransaction.contributions =
      s.participants.map (fun p =>
        (p.id, toFixed2 (jsDivNat (parseFloat s.currentTransaction.amount)
          s.participants.length))) ∧
    lookupObj (removeParticipant s pid).currentTransaction.contributions pid =
      some (toFixed2 (jsDivNat (parseFloat s.currentTransaction.amount)
        s.participants.length)) := by
  have hne : s.participants ≠ [] := by
    intro h
    rw [h] at hmem
    simp at hmem
  have hcontrib : (removeParticipant s pid).currentTransaction.contributions =
      s.participants.map (fun p =>
        (p.id, toFixed2 (jsDivNat (parseFloat s.currentTransaction.amount)
          s.participants.length))) := by
    unfold removeParticipant
    simp only [hsplit, if_true]
    exact recalculateSplitBill_eq_map s.participants s.currentTransaction.amount hne hnd
  refine ⟨?_, hcontrib, ?_⟩
  · intro p hp
    unfold removeParticipant at hp
    simp only [List.mem_filter] at hp
    simpa using hp.2
  · rw [hcontrib]
    exact lookupObj_map_const _ pid s.participants hmem

/-- Claim C2, witness instance for the amended claim at the concrete state:
the removed id "1" reads back an entry of 50 (divisor 2, the pre-removal
count) and "1" is gone from the participant list. -/
theorem c2_witness :
    lookupObj (removeParticipant c2State "1").currentTransaction.contributions "1" =
      some (JStr.num 50) ∧
    (∀ p ∈ (removeParticipant c2State "1").participants, p.id ≠ "1") := by
  have h := c2_amended c2State "1" (by decide) (by decide) (by decide)
  refine ⟨?_, h.1⟩
  rw [h.2.2]
  norm_num [c2State, toFixed2, jsDivNat, parseFloat, round2, Int.fdiv]

/-! ### Claim C3 -/

/-- Concrete state used for claim C3: one registered participant and an
equal-split draft of amount 100. -/
def c3State : AppState :=
  { participants := [⟨"1", "A"⟩],
    transactions := [],
    currentTransaction :=
      { id := "", title := "", amount := JStr.num 100, payer := "",
        contributions := [("1", JStr.num 100)], isSplitBill := true },
    editingTransactionId := none }

/-- Claim C3, counterexample: adding "Bob" to an equal-split draft sets only
the new participant's entry to `100 / 2 = 50`; the pre-existing participant
keeps the old entry 100, whereas the claim requires every participant's entry
to equal the amount divided by the new count. -/
theorem c3_counterexample :
    (addParticipant c3State "Bob" "2").currentTransaction.contributions =
      [("1", JStr.num 100), ("2", JStr.num 50)] ∧
    lookupObj (addParticipant c3State "Bob" "2").currentTransaction.contributions "1" ≠
      some (JStr.num (round2 (100 / 2))) := by
  have hc : (addParticipant c3State "Bob" "2").currentTransaction.contributions =
      [("1", JStr.num 100), ("2", JStr.num 50)] := by
    unfold addParticipant
    rw [if_pos (show jsTrim "Bob" ≠ "" by decide)]
    simp [c3State, objInsert, toFixed2, jsDivNat, parseFloat]
    norm_num [round2, Int.fdiv]
  refine ⟨hc, ?_⟩
  rw [hc]
  have hl : lookupObj [("1", JStr.num 100), ("2", JStr.num 50)] "1" =
      some (JStr.num 100) := rfl
  rw [hl]
  simp only [ne_eq, Option.some.injEq, JStr.num.injEq]
  norm_num [round2, Int.fdiv]

/-- Claim C3 (amended): for a name with non-empty trim, `addParticipant`
appends a fresh participant to the ordered list, and when the draft is in
equal-split mode it appends a single contribution entry for the new
participant equal to the amount divided by the new participant count rounded
to 2 decimal places; the pre-existing participants' contribution entries are
left unchanged. -/
theorem c3_amended (s : AppState) (nm freshId : String)
    (hname : jsTrim nm ≠ "")
    (hsplit : s.currentTransaction.isSplitBill = true)
    (hfresh : ∀ e ∈ s.currentTransaction.contributions, e.fst ≠ freshId) :
    (addParticipant s nm freshId).participants =
      s.participants ++ [{ id := freshId, name := jsTrim nm }] ∧
    (addParticipant s nm freshId).currentTransaction.contributions =
      s.currentTransaction.contributions ++
        [(freshId, toFixed2 (jsDivNat (parseFloat s.currentTransaction.amount)
          (s.participants.length + 1)))] := by
  unfold addParticipant
  rw [if_pos hname]
  constructor
  · rfl
  · simp only [hsplit, if_true]
    exact objInsert_of_not_mem _ _ _ hfresh

/-- Claim C3, witness instance for the amended claim at the concrete state:
"Bob" is appended with entry 50 while "A" keeps entry 100. -/
theorem c3_witness :
    (addParticipant c3State "Bob" "2").participants = [⟨"1", "A"⟩, ⟨"2", "Bob"⟩] ∧
    (addParticipant c3State "Bob" "2").currentTransaction.contributions =
      [("1", JStr.num 100), ("2", JStr.num 50)] := by
  have h := c3_amended c3State "Bob" "2" (by decide) (by decide) (by decide)
  constructor
  · rw [h.1]
    rfl
  · rw [h.2]
    norm_num [c3State, toFixed2, jsDivNat, parseFloat, round2, Int.fdiv]

/-! ### Claim C4 -/

/-- Concrete transaction used for claim C4: its non-empty payer "X" is not a
registered participant. -/
def c4Tx : Transaction :=
  { id := "t1", title := "t", amount := JStr.num 100, payer := "X",
    contributions := [], isSplitBill := false }

/-- Claim C4, counterexample: with no registered participants, a transaction
paid by the unknown id "X" produces a summary containing a NaN entry for "X";
the claim requires the unknown payer to be silently dropped with no entry
created, which would leave the summary empty. -/
theorem c4_counterexample :
    calculateSummary [] [c4Tx] = [("X", JSNum.nan)] ∧
    calculateSummary [] [c4Tx] ≠ [] := by
  have h1 : calculateSummary [] [c4Tx] = [("X", JSNum.nan)] := rfl
  refine ⟨h1, ?_⟩
  rw [h1]
  simp

/-- Claim C4 (amended): `calculateSummary` initialises a balance of 0 for
exactly the current participants, adds each transaction's parsed amount to its
payer's balance when the payer field is non-empty, and subtracts each
contribution's parsed value from that participant's balance; but an id that is
not a current participant is not silently dropped: its first write (as payer
or contributor) creates an entry in the returned mapping whose value is NaN,
and untouched unknown ids have no entry. -/
theorem c4_amended (parts : List Participant) (ts : List Transaction) (k : String) :
    lookupObj (calculateSummary parts ts) k =
      if k ∈ parts.map Participant.id then some (JSNum.val (balanceSpec k ts))
      else if touched k ts then some JSNum.nan else none := by
  unfold calculateSummary
  rw [lookupObj_foldl_applyTransaction]
  have hinit : lookupObj (jsFromEntries (parts.map (fun p => (p.id, JSNum.val 0)))) k =
      if k ∈ parts.map Participant.id then some (JSNum.val 0) else none := by
    unfold jsFromEntries
    rw [lookupObj_foldl_const]
    rfl
  rw [hinit]
  by_cases hk : k ∈ parts.map Participant.id
  · rw [if_pos hk, if_pos hk, foldl_tStep_val]
    rw [zero_add]
  · rw [if_neg hk, if_neg hk, foldl_tStep_none]

/-! ### Claim C5 -/

/-- Concrete state used for claim C5: empty ledger, non-trivial draft, no edit
in progress. -/
def c5State : AppState :=
  { participants := [⟨"1", "A"⟩],
    transactions := [],
    currentTransaction :=
      { id := "", title := "x", amount := JStr.num 100, payer := "",
        contributions := [("1", JStr.num 100)], isSplitBill := false },
    editingTransactionId := none }

/-- Claim C5, counterexample: for the absent id "42", `editTransaction` does
not leave the draft and edit-in-progress state in a usable, unchanged state:
the draft receives the undefined result of the failed lookup (`none`, not a
transaction) and "42" is still recorded as the edit target. -/
theorem c5_counterexample :
    (editTransaction c5State "42").draftLoaded = none ∧
    (editTransaction c5State "42").draftLoaded ≠ some c5State.currentTransaction ∧
    (editTransaction c5State "42").editingAfter = some "42" ∧
    (editTransaction c5State "42").editingAfter ≠ c5State.editingTransactionId := by
  have h0 : (editTransaction c5State "42").draftLoaded = none := rfl
  have h1 : (editTransaction c5State "42").editingAfter = some "42" := rfl
  refine ⟨h0, ?_, h1, ?_⟩
  · rw [h0]
    simp
  · rw [h1]
    simp [c5State]

/-- Claim C5 (amended): `editTransaction(id)` never alters the ledger and
always records `id` as the edit target; when no ledger transaction bears `id`
the draft is set to the undefined lookup result (`none`) rather than keeping
its previous value, and when some transaction bears `id` (ids being distinct)
that transaction's full state is loaded into the draft. -/
theorem c5_amended (s : AppState) (i : String) :
    (editTransaction s i).transactionsAfter = s.transactions ∧
    (editTransaction s i).editingAfter = some i ∧
    ((∀ t ∈ s.transactions, t.id ≠ i) → (editTransaction s i).draftLoaded = none) ∧
    (∀ t : Transaction, (s.transactions.map Transaction.id).Nodup →
      t ∈ s.transactions → t.id = i → (editTransaction s i).draftLoaded = some t) := by
  refine ⟨rfl, rfl, ?_, ?_⟩
  · intro h
    unfold editTransaction
    simp only
    rw [List.find?_eq_none]
    intro x hx
    simpa using h x hx
  · intro t hnd hmem hid
    unfold editTransaction
    simp only
    exact find?_eq_some_of_mem_nodup s.transactions t i hnd hmem hid

/-- Concrete transaction stored in the ledger for the claim C5 witness. -/
def c5EditTx : Transaction :=
  { id := "7", title := "old", amount := JStr.num 100, payer := "1",
    contributions := [("1", JStr.num 100)], isSplitBill := false }

/-- Concrete state with one stored transaction for the claim C5 witness. -/
def c5EditState : AppState :=
  { participants := [⟨"1", "A"⟩],
    transactions := [c5EditTx],
    currentTransaction :=
      { id := "", title := "", amount := JStr.empty, payer := "",
        contributions := [("1", JStr.empty)], isSplitBill := false },
    editingTransactionId := none }

/-- Claim C5, witness instance for the amended claim: the present id "7" loads
the stored transaction with the ledger unchanged, while the absent id "9"
loads `none`. -/
theorem c5_witness :
    (editTransaction c5EditState "7").draftLoaded = some c5EditTx ∧
    (editTransaction c5EditState "7").transactionsAfter = c5EditState.transactions ∧
    (editTransaction c5EditState "9").draftLoaded = none :=
  ⟨(c5_amended c5EditState "7").2.2.2 c5EditTx (by decide)
      (List.mem_cons_self _ _) rfl,
    (c5_amended c5EditState "7").1,
    (c5_amended c5EditState "9").2.2.1 (by decide)⟩

/-! ### Claim C6 -/

/-- Claim C6: `validateContributions` returns the empty string exactly when
the sum of the parsed contribution values (non-numeric parsed as 0) equals the
parsed amount (non-numeric parsed as 0); it returns the "exceeds" message
exactly when the sum is strictly greater and the "less than" message exactly
when the sum is strictly smaller — exact comparison, no epsilon tolerance. -/
theorem c6_validate_trichotomy (t : Transaction) :
    (validateContributions t = "" ↔ contribTotal t = orZero (parseFloat t.amount)) ∧
    (validateContributions t = "Total contributions exceed the transaction amount." ↔
      orZero (parseFloat t.amount) < contribTotal t) ∧
    (validateContributions t = "Total contributions are less than the transaction amount." ↔
      contribTotal t < orZero (parseFloat t.amount)) := by
  have hfold : t.contributions.foldl (fun sum e => sum + orZero (parseFloat e.snd)) 0 =
      contribTotal t := by
    rw [foldl_add_eq_sum]
    simp [contribTotal]
  simp only [validateContributions]
  rw [hfold]
  split_ifs with h1 h2
  · exact ⟨iff_of_false (by decide) (fun hh => absurd hh (ne_of_gt h1)),
      iff_of_true rfl h1,
      iff_of_false (by decide) (fun hh => absurd hh (lt_asymm h1))⟩
  · exact ⟨iff_of_false (by decide) (fun hh => absurd hh (ne_of_lt h2)),
      iff_of_false (by decide) (fun hh => absurd hh (lt_asymm h2)),
      iff_of_true rfl h2⟩
  · have heq : contribTotal t = orZero (parseFloat t.amount) :=
      le_antisymm (not_lt.mp h1) (not_lt.mp h2)
    refine ⟨iff_of_true rfl heq, iff_of_false (by decide) ?_, iff_of_false (by decide) ?_⟩
    · intro hh
      rw [heq] at hh
      exact lt_irrefl _ hh
    · intro hh
      rw [heq] at hh
      exact lt_irrefl _ hh

/-! ### Claim C7 -/

/-- State equation for `submitTransaction` in edit mode (truthy edit id). -/
theorem submitTransaction_edit (s : AppState) (freshId eid : String)
    (hset : s.editingTransactionId = some eid) (hne : eid ≠ "") :
    submitTransaction s freshId =
      { participants := s.participants,
        transactions := s.transactions.map (fun t =>
          if t.id == eid then { s.currentTransaction with id := eid } else t),
        currentTransaction := emptyDraft s.participants,
        editingTransactionId := none } := by
  simp only [submitTransaction, hset]
  rw [if_pos hne]

/-- State equation for `submitTransaction` in create mode (no edit id). -/
theorem submitTransaction_create (s : AppState) (freshId : String)
    (hset : s.editingTransactionId = none) :
    submitTransaction s freshId =
      { participants := s.participants,
        transactions := s.transactions ++ [{ s.currentTransaction with id := freshId }],
        currentTransaction := emptyDraft s.participants,
        editingTransactionId := none } := by
  simp only [submitTransaction, hset]

/-- Claim C7: when the edit-in-progress id is set (truthy) and present in the
ledger, `submit` replaces the transaction bearing that id in place — same
ordering position, id preserved, all other fields overwritten with the
draft's — and clears edit mode; when no edit id is set, `submit` appends the
draft with the supplied fresh id (`Date.now().toString()` modelled as the
external argument `freshId`), and when that id is distinct from all existing
transaction ids it occurs exactly once in the resulting ledger. -/
theorem c7_submit_replace_or_append (s : AppState) (freshId : String) :
    (∀ eid, s.editingTransactionId = some eid → eid ≠ "" →
      (∃ t ∈ s.transactions, t.id = eid) →
      ((submitTransaction s freshId).editingTransactionId = none ∧
       (submitTransaction s freshId).transactions.length = s.transactions.length ∧
       ∀ i : Nat, (submitTransaction s freshId).transactions[i]? =
         (s.transactions[i]?).map (fun t =>
           if t.id == eid then { s.currentTransaction with id := eid } else t))) ∧
    (s.editingTransactionId = none →
      ((submitTransaction s freshId).transactions =
         s.transactions ++ [{ s.currentTransaction with id := freshId }] ∧
       (submitTransaction s freshId).editingTransactionId = none ∧
       ((∀ t ∈ s.transactions, t.id ≠ freshId) →
         ((submitTransaction s freshId).transactions.map Transaction.id).count freshId
           = 1))) := by
  constructor
  · intro eid hset hne _hpres
    rw [submitTransaction_edit s freshId eid hset hne]
    refine ⟨rfl, List.length_map _ _, ?_⟩
    intro i
    exact List.getElem?_map _ _ _
  · intro hset
    rw [submitTransaction_create s freshId hset]
    refine ⟨rfl, rfl, ?_⟩
    intro hfresh
    have hzero : (s.transactions.map Transaction.id).count freshId = 0 := by
      rw [List.count_eq_zero]
      intro hmem
      rcases List.mem_map.mp hmem with ⟨t, ht, hid⟩
      exact hfresh t ht hid
    simp [List.count_append, hzero]

/-- Draft transaction used for the claim C7 witness. -/
def c7Draft : Transaction :=
  { id := "", title := "new", amount := JStr.num 20, payer := "1",
    contributions := [("1", JStr.num 20)], isSplitBill := false }

/-- Stored transaction used for the claim C7 witness. -/
def c7Tx : Transaction :=
  { id := "7", title := "old", amount := JStr.num 10, payer := "1",
    contributions := [("1", JStr.num 10)], isSplitBill := false }

/-- Claim C7 witness state in edit mode (editing the stored transaction). -/
def c7EditState : AppState :=
  { participants := [⟨"1", "A"⟩], transactions := [c7Tx],
    currentTransaction := c7Draft, editingTransactionId := some "7" }

/-- Claim C7 witness state in create mode. -/
def c7CreateState : AppState :=
  { participants := [⟨"1", "A"⟩], transactions := [c7Tx],
    currentTransaction := c7Draft, editingTransactionId := none }

/-- Claim C7, witness instance: editing replaces the stored transaction in
place with the draft fields under the preserved id "7" and clears edit mode;
creating appends the draft under the fresh id "99", which then occurs exactly
once. -/
theorem c7_witness :
    (submitTransaction c7EditState "99").editingTransactionId = none ∧
    (submitTransaction c7EditState "99").transactions[0]? =
      some { c7Draft with id := "7" } ∧
    (submitTransaction c7CreateState "99").transactions =
      c7CreateState.transactions ++ [{ c7Draft with id := "99" }] ∧
    ((submitTransaction c7CreateState "99").transactions.map Transaction.id).count "99"
      = 1 := by
  have h1 := (c7_submit_replace_or_append c7EditState "99").1 "7" rfl (by decide)
    ⟨c7Tx, List.mem_cons_self _ _, rfl⟩
  have h2 := (c7_submit_replace_or_append c7CreateState "99").2 rfl
  refine ⟨h1.1, ?_, h2.1, h2.2.2 (by decide)⟩
  rw [h1.2.2 0]
  rfl

/-! ### Claim C8 -/

/-- Claim C8: after every call to `submit` — edit mode or create mode — the
draft equals the empty template: empty id, title, amount and payer,
`isSplitBill` false, and (the participant ids being distinct) exactly one
empty-string contribution entry per participant currently in the registry. -/
theorem c8_draft_reset (s : AppState) (freshId : String)
    (hnd : (s.participants.map Participant.id).Nodup) :
    (submitTransaction s freshId).currentTransaction =
      { id := "", title := "", amount := JStr.empty, payer := "",
        contributions := s.participants.map (fun p => (p.id, JStr.empty)),
        isSplitBill := false } := by
  have h0 : (submitTransaction s freshId).currentTransaction =
      emptyDraft s.participants := rfl
  rw [h0]
  unfold emptyDraft
  rw [jsFromEntries_eq_self _ (by simpa [List.map_map, Function.comp] using hnd)]

/-- Claim C8 witness state: one participant, a fully populated equal-split
draft, no edit in progress. -/
def c8State : AppState :=
  { participants := [⟨"1", "A"⟩],
    transactions := [],
    currentTransaction :=
      { id := "", title := "lunch", amount := JStr.num 100, payer := "1",
        contributions := [("1", JStr.num 100)], isSplitBill := true },
    editingTransactionId := none }

/-- Claim C8, witness instance: after submitting, the draft is the empty
template with a single empty-string entry for participant "1". -/
theorem c8_witness :
    (submitTransaction c8State "9").currentTransaction =
      { id := "", title := "", amount := JStr.empty, payer := "",
        contributions := [("1", JStr.empty)], isSplitBill := false } := by
  have h := c8_draft_reset c8State "9" (by decide)
  rw [h]
  rfl

/-! ### Claim C9 -/

/-- Claim C9: `deleteTransaction(id)` removes every transaction bearing that
id (a no-op when absent), keeps all other transactions in their relative order
(the result is a sublist of the original ledger), and leaves both the draft
and the edit-in-progress id untouched — including when the deleted transaction
is the one currently being edited. -/
theorem c9_delete_frame (s : AppState) (tid : String) :
    List.Sublist (deleteTransaction s tid).transactions s.transactions ∧
    (∀ t ∈ (deleteTransaction s tid).transactions, t.id ≠ tid) ∧
    (∀ t ∈ s.transactions, t.id ≠ tid → t ∈ (deleteTransaction s tid).transactions) ∧
    (deleteTransaction s tid).currentTransaction = s.currentTransaction ∧
    (deleteTransaction s tid).editingTransactionId = s.editingTransactionId ∧
    ((∀ t ∈ s.transactions, t.id ≠ tid) →
      (deleteTransaction s tid).transactions = s.transactions) := by
  refine ⟨List.filter_sublist _, ?_, ?_, rfl, rfl, ?_⟩
  · intro t ht
    have h2 := (List.mem_filter.mp ht).2
    simpa using h2
  · intro t ht h
    exact List.mem_filter.mpr ⟨ht, by simpa using h⟩
  · intro h
    apply List.filter_eq_self.mpr
    intro t ht
    simpa using h t ht

/-- Ledger transactions used for the claim C9 witness. -/
def c9TxA : Transaction :=
  { id := "a", title := "t1", amount := JStr.num 10, payer := "1",
    contributions := [("1", JStr.num 10)], isSplitBill := false }

/-- Second ledger transaction used for the claim C9 witness. -/
def c9TxB : Transaction :=
  { id := "b", title := "t2", amount := JStr.num 20, payer := "1",
    contributions := [("1", JStr.num 20)], isSplitBill := false }

/-- Claim C9 witness state: transaction "a" is currently being edited. -/
def c9State : AppState :=
  { participants := [⟨"1", "A"⟩],
    transactions := [c9TxA, c9TxB],
    currentTransaction := c9TxA,
    editingTransactionId := some "a" }

/-- Claim C9, witness instance: deleting the transaction being edited ("a")
leaves the draft and the edit target untouched, no "a" transaction remains,
and deleting an absent id is a no-op. -/
theorem c9_witness :
    (deleteTransaction c9State "a").currentTransaction = c9State.currentTransaction ∧
    (deleteTransaction c9State "a").editingTransactionId = c9State.editingTransactionId ∧
    (∀ t ∈ (deleteTransaction c9State "a").transactions, t.id ≠ "a") ∧
    (deleteTransaction c9State "zz").transactions = c9State.transactions := by
  have h := c9_delete_frame c9State "a"
  have h2 := c9_delete_frame c9State "zz"
  exact ⟨h.2.2.2.1, h.2.2.2.2.1, h.2.1, h2.2.2.2.2.2 (by decide)⟩

/-! ### Claim C10 -/

/-- Claim C10: when the edit-in-progress id is set (truthy) but no ledger
transaction bears it — e.g. it was deleted while being edited — `submit`
leaves the transaction list unchanged (nothing replaced, nothing created),
clears edit mode, and resets the draft to the empty template. -/
theorem c10_submit_after_delete (s : AppState) (freshId eid : String)
    (hset : s.editingTransactionId = some eid) (hne : eid ≠ "")
    (habsent : ∀ t ∈ s.transactions, t.id ≠ eid) :
    (submitTransaction s freshId).transactions = s.transactions ∧
    (submitTransaction s freshId).editingTransactionId = none ∧
    (submitTransaction s freshId).currentTransaction = emptyDraft s.participants := by
  rw [submitTransaction_edit s freshId eid hset hne]
  exact ⟨map_replace_of_not_mem s.transactions eid _ habsent, rfl, rfl⟩

/-- Claim C10 witness state: editing id "7" dangles — the ledger only holds
transaction "8". -/
def c10State : AppState :=
  { participants := [⟨"1", "A"⟩],
    transactions :=
      [{ id := "8", title := "kept", amount := JStr.num 10, payer := "1",
         contributions := [("1", JStr.num 10)], isSplitBill := false }],
    currentTransaction :=
      { id := "", title := "", amount := JStr.empty, payer := "",
        contributions := [("1", JStr.empty)], isSplitBill := false },
    editingTransactionId := some "7" }

/-- Claim C10, witness instance: submitting with the dangling edit id "7"
leaves the ledger unchanged and clears edit mode. -/
theorem c10_witness :
    (submitTransaction c10State "99").transactions = c10State.transactions ∧
    (submitTransaction c10State "99").editingTransactionId = none := by
  have h := c10_submit_after_delete c10State "99" "7" rfl (by decide) (by decide)
  exact ⟨h.1, h.2.1⟩

end Themis
